import Mathlib

/-
Verification of the validation layer of `server/models.py` (Flask-SQLAlchemy
validations lab).  The Python module declares two persisted models, `Author`
and `Post`, each with `@validates` hooks that intercept attribute assignment,
and column declarations whose constraints (`nullable=False`, `unique=True`)
are enforced by the database at commit time.

The shallow embedding below models:
  - Python optional strings as `Option String` (Lean `String` is a list of
    unicode codepoints, and `String.length` counts codepoints, exactly like
    Python `len` on `str`); text is treated as ASCII text, so the character
    classes used by `str.isdigit` and `str.strip` are modelled over the
    ASCII range, where they are the decimal digits `0`-`9` and the ASCII
    whitespace characters;
  - each `@validates` method as a function from the ambient persisted store
    (the Python global query registry), the record being validated (`self`)
    and the candidate value to `Except String (Option String)`: `.error`
    models a raised `ValueError`, `.ok r` models the validator returning `r`,
    which the ORM then stores as the new attribute value;
  - attribute assignment as a function producing either the updated
    in-memory record or the propagated error;
  - commit of a record as insertion/update of a row, at which point the
    database enforces the declared column constraints (`NOT NULL` on
    `authors.name` and `posts.title`, `UNIQUE` on `authors.name`) and
    assigns primary keys from a monotone counter;
  - the set of stores reachable through this interface as an inductive
    predicate `Reachable`.
-/

namespace Models

/-- Whitespace characters removed by Python `str.strip` (modelled over the
ASCII range: space, tab, newline, carriage return, vertical tab, form feed). -/
def pyIsSpace (c : Char) : Bool :=
  c == ' ' || c == '\t' || c == '\n' || c == '\r' || c == '\x0b' || c == '\x0c'

/-- Characters accepted by Python `str.isdigit`, modelled over the ASCII
range, where they are exactly the decimal digits `0`-`9`. -/
def pyIsDigitChar (c : Char) : Bool :=
  48 ≤ c.toNat && c.toNat ≤ 57

/-- Python `str.isdigit`: true iff the string is non-empty and every
character is a digit. -/
def pyIsDigit (s : String) : Bool :=
  !(s.toList.isEmpty) && s.toList.all pyIsDigitChar

/-- Python truthiness of an optional string: `None` and the empty string are
falsy, every other string is truthy. -/
def pyTruthy : Option String → Bool
  | none => false
  | some s => !(s.toList.isEmpty)

/-- The underlying string of an optional value.  Used only in positions the
Python code reaches after a short-circuiting truthiness guard, so the `none`
branch is never actually taken. -/
def strOf : Option String → String
  | none => ""
  | some s => s

/-- Python `not value or not value.strip()` on an optional string: true iff
the value is `None`, empty, or consists only of whitespace. -/
def isBlankOpt : Option String → Bool
  | none => true
  | some s => s.toList.isEmpty || s.toList.all pyIsSpace

/-- Matching of a pattern against the front of a list (the first list is a
leading segment of the second). -/
def leadMatch : List Char → List Char → Bool
  | [], _ => true
  | _ :: _, [] => false
  | c :: cs, d :: ds => c == d && leadMatch cs ds

/-- Occurrence of a pattern anywhere inside a list: scan every tail. -/
def subMatch (nd : List Char) : List Char → Bool
  | [] => nd.isEmpty
  | d :: ds => leadMatch nd (d :: ds) || subMatch nd ds

/-- Python `nd in hay` on strings: literal, case-sensitive substring test. -/
def pyInStr (nd hay : String) : Bool :=
  subMatch nd.toList hay.toList

/-- The fixed clickbait phrase list from `Post.validate_title`. -/
def clickbait_phrases : List String :=
  ["Won\x27t Believe", "Secret", "Top", "Guess"]

/-- In-memory `Author` object: `id` is `none` until storage assigns it;
unassigned attributes are `None` in Python, hence `none` here. -/
structure Author where
  id : Option Nat
  name : Option String
  phone_number : Option String
deriving DecidableEq, Repr

/-- Persisted `authors` row: the database enforces `nullable=False` on
`name`, so a committed row always carries a name. -/
structure PAuthor where
  id : Nat
  name : String
  phone_number : Option String
deriving DecidableEq, Repr

/-- In-memory `Post` object. -/
structure Post where
  id : Option Nat
  title : Option String
  content : Option String
  category : Option String
  summary : Option String
deriving DecidableEq, Repr

/-- Persisted `posts` row: only `title` is declared `nullable=False`;
`content`, `category` and `summary` are nullable columns. -/
structure PPost where
  id : Nat
  title : String
  content : Option String
  category : Option String
  summary : Option String
deriving DecidableEq, Repr

/-- The committed storage: the persisted rows plus the primary-key
counters. -/
structure Store where
  authors : List PAuthor
  posts : List PPost
  nextAuthorId : Nat
  nextPostId : Nat
deriving DecidableEq, Repr

/-- The empty database. -/
def store0 : Store := ⟨[], [], 1, 1⟩

/-- A freshly constructed `Author()`, before any attribute assignment. -/
def fresh_author : Author := ⟨none, none, none⟩

/-- A freshly constructed `Post()`, before any attribute assignment. -/
def fresh_post : Post := ⟨none, none, none, none, none⟩

/-- The in-memory object obtained by loading a persisted author row. -/
def loadAuthor (r : PAuthor) : Author := ⟨some r.id, some r.name, r.phone_number⟩

/-- The in-memory object obtained by loading a persisted post row. -/
def loadPost (r : PPost) : Post := ⟨some r.id, some r.title, r.content, r.category, r.summary⟩

/-- `Author.validate_name`: rejects a missing/blank name, then looks up the
persisted authors (`Author.query.filter(Author.name == value).first()`) and
rejects when the first match is a record other than `self` (comparison by
primary key, where a brand-new record has `self.id = none`). -/
def validate_name (db : Store) (self : Author) (value : Option String) :
    Except String (Option String) :=
  if isBlankOpt value then
    .error "Author must have a name."
  else
    match db.authors.find? (fun r => some r.name == value) with
    | some existing =>
      if some existing.id != self.id then
        .error "Author name must be unique."
      else
        .ok value
    | none => .ok value

/-- `Author.validate_phone_number`: `None` is accepted; otherwise the value
must have length exactly 10 and satisfy `str.isdigit`. -/
def validate_phone_number (db : Store) (self : Author) (value : Option String) :
    Except String (Option String) :=
  match value with
  | none => .ok none
  | some v =>
    if v.length != 10 || !(pyIsDigit v) then
      .error "Phone number must be exactly 10 digits."
    else
      .ok (some v)

/-- `Post.validate_title`: rejects a missing/blank title, then rejects unless
some clickbait phrase occurs in the title as a literal substring. -/
def validate_title (db : Store) (self : Post) (value : Option String) :
    Except String (Option String) :=
  if isBlankOpt value then
    .error "Post must have a title."
  else if !(clickbait_phrases.any (fun phrase => pyInStr phrase (strOf value))) then
    .error "Title must be sufficiently clickbait-y."
  else
    .ok value

/-- `Post.validate_content`: `if not value or len(value) < 250: raise`. -/
def validate_content (db : Store) (self : Post) (value : Option String) :
    Except String (Option String) :=
  if !(pyTruthy value) || decide ((strOf value).length < 250) then
    .error "Post content must be at least 250 characters long."
  else
    .ok value

/-- `Post.validate_summary`: `if value is not None and len(value) > 250: raise`. -/
def validate_summary (db : Store) (self : Post) (value : Option String) :
    Except String (Option String) :=
  if value.isSome && decide (250 < (strOf value).length) then
    .error "Post summary must be at most 250 characters long."
  else
    .ok value

/-- `Post.validate_category`: `if value not in ("Fiction", "Non-Fiction"): raise`. -/
def validate_category (db : Store) (self : Post) (value : Option String) :
    Except String (Option String) :=
  if !(value == some "Fiction" || value == some "Non-Fiction") then
    .error "Post category must be either \x27Fiction\x27 or \x27Non-Fiction\x27."
  else
    .ok value

/-- Acceptance of a validator outcome. -/
def accepts : Except String (Option String) → Bool
  | .ok _ => true
  | .error _ => false

/-- Assignment `author.name = v`: the ORM runs the validator and stores the
returned value; a raised error propagates and the object is not changed. -/
def assignAuthorName (db : Store) (a : Author) (v : Option String) :
    Except String Author :=
  match validate_name db a v with
  | .ok r => .ok { a with name := r }
  | .error e => .error e

/-- Assignment `author.phone_number = v`. -/
def assignAuthorPhone (db : Store) (a : Author) (v : Option String) :
    Except String Author :=
  match validate_phone_number db a v with
  | .ok r => .ok { a with phone_number := r }
  | .error e => .error e

/-- Assignment `post.title = v`. -/
def assignPostTitle (db : Store) (p : Post) (v : Option String) :
    Except String Post :=
  match validate_title db p v with
  | .ok r => .ok { p with title := r }
  | .error e => .error e

/-- Assignment `post.content = v`. -/
def assignPostContent (db : Store) (p : Post) (v : Option String) :
    Except String Post :=
  match validate_content db p v with
  | .ok r => .ok { p with content := r }
  | .error e => .error e

/-- Assignment `post.summary = v`. -/
def assignPostSummary (db : Store) (p : Post) (v : Option String) :
    Except String Post :=
  match validate_summary db p v with
  | .ok r => .ok { p with summary := r }
  | .error e => .error e

/-- Assignment `post.category = v`. -/
def assignPostCategory (db : Store) (p : Post) (v : Option String) :
    Except String Post :=
  match validate_category db p v with
  | .ok r => .ok { p with category := r }
  | .error e => .error e

/-- One successful validated assignment to an in-memory author, performed
against some ambient persisted store (other sessions may commit in between,
so each step may see a different store). -/
inductive AuthorAssign : Author → Author → Prop
  | name (db : Store) (a a2 : Author) (v : Option String) :
      assignAuthorName db a v = .ok a2 → AuthorAssign a a2
  | phone (db : Store) (a a2 : Author) (v : Option String) :
      assignAuthorPhone db a v = .ok a2 → AuthorAssign a a2

/-- One successful validated assignment to an in-memory post. -/
inductive PostAssign : Post → Post → Prop
  | title (db : Store) (p p2 : Post) (v : Option String) :
      assignPostTitle db p v = .ok p2 → PostAssign p p2
  | content (db : Store) (p p2 : Post) (v : Option String) :
      assignPostContent db p v = .ok p2 → PostAssign p p2
  | summary (db : Store) (p p2 : Post) (v : Option String) :
      assignPostSummary db p v = .ok p2 → PostAssign p p2
  | category (db : Store) (p p2 : Post) (v : Option String) :
      assignPostCategory db p v = .ok p2 → PostAssign p p2

/-- Any finite sequence of successful validated assignments to an author. -/
def AuthorBuild : Author → Author → Prop :=
  Relation.ReflTransGen AuthorAssign

/-- Any finite sequence of successful validated assignments to a post. -/
def PostBuild : Post → Post → Prop :=
  Relation.ReflTransGen PostAssign

/-- Commit of a new author: the database enforces `nullable=False` and
`unique=True` on `authors.name` and assigns the next primary key. -/
def insertAuthor (s : Store) (a : Author) : Except String Store :=
  match a.name with
  | none => .error "NOT NULL constraint failed: authors.name"
  | some n =>
    if s.authors.any (fun r => r.name == n) then
      .error "UNIQUE constraint failed: authors.name"
    else
      .ok { s with authors := ⟨s.nextAuthorId, n, a.phone_number⟩ :: s.authors,
                   nextAuthorId := s.nextAuthorId + 1 }

/-- Commit of an update to the author row with primary key `i`: the database
enforces `NOT NULL` and uniqueness of the name against every other row. -/
def updateAuthor (s : Store) (i : Nat) (a : Author) : Except String Store :=
  match a.name with
  | none => .error "NOT NULL constraint failed: authors.name"
  | some n =>
    if s.authors.any (fun r => !(r.id == i) && r.name == n) then
      .error "UNIQUE constraint failed: authors.name"
    else
      .ok { s with authors :=
              s.authors.map (fun r => if r.id == i then ⟨i, n, a.phone_number⟩ else r) }

/-- Commit of a new post: the database enforces `nullable=False` on
`posts.title`; the other columns are nullable, so whatever the in-memory
object holds (including `none` for never-assigned attributes) is stored. -/
def insertPost (s : Store) (p : Post) : Except String Store :=
  match p.title with
  | none => .error "NOT NULL constraint failed: posts.title"
  | some t =>
    .ok { s with posts := ⟨s.nextPostId, t, p.content, p.category, p.summary⟩ :: s.posts,
                 nextPostId := s.nextPostId + 1 }

/-- Commit of an update to the post row with primary key `i`. -/
def updatePost (s : Store) (i : Nat) (p : Post) : Except String Store :=
  match p.title with
  | none => .error "NOT NULL constraint failed: posts.title"
  | some t =>
    .ok { s with posts :=
            s.posts.map (fun r => if r.id == i then ⟨i, t, p.content, p.category, p.summary⟩ else r) }

/-- The stores reachable through the model interface: starting from the
empty database, build a fresh record (or load a persisted row) through
validated assignments and commit it. -/
inductive Reachable : Store → Prop
  | init : Reachable store0
  | createAuthor {s s2 : Store} {a : Author} :
      Reachable s → AuthorBuild fresh_author a → insertAuthor s a = .ok s2 → Reachable s2
  | editAuthor {s s2 : Store} {r : PAuthor} {a : Author} :
      Reachable s → r ∈ s.authors → AuthorBuild (loadAuthor r) a →
      updateAuthor s r.id a = .ok s2 → Reachable s2
  | createPost {s s2 : Store} {p : Post} :
      Reachable s → PostBuild fresh_post p → insertPost s p = .ok s2 → Reachable s2
  | editPost {s s2 : Store} {r : PPost} {p : Post} :
      Reachable s → r ∈ s.posts → PostBuild (loadPost r) p →
      updatePost s r.id p = .ok s2 → Reachable s2

/-- Non-blankness of a string: not every character is whitespace. -/
def nonBlank (s : String) : Bool :=
  !(s.toList.all pyIsSpace)

/-- Validity of a stored phone number: absent, or 10 digit characters. -/
def phone10 : Option String → Bool
  | none => true
  | some p => p.length == 10 && p.toList.all pyIsDigitChar

/-- Clickbait test for a title: one of the fixed phrases occurs in it. -/
def clickbaity (t : String) : Bool :=
  clickbait_phrases.any (fun phrase => pyInStr phrase t)

/-- Validity of stored content: absent, or at least 250 characters. -/
def contentOK : Option String → Bool
  | none => true
  | some c => decide (250 ≤ c.length)

/-- Validity of a stored summary: absent, or at most 250 characters. -/
def summaryOK : Option String → Bool
  | none => true
  | some s => decide (s.length ≤ 250)

/-- Validity of a stored category: absent, or one of the two fixed strings. -/
def categoryOK : Option String → Bool
  | none => true
  | some c => c == "Fiction" || c == "Non-Fiction"

/-- Field invariants of a persisted author row. -/
def authorRowOK (r : PAuthor) : Bool :=
  nonBlank r.name && phone10 r.phone_number

/-- Field invariants of a persisted post row.  `content` and `category` may
be absent, because those columns are nullable and validation runs only on
assignment. -/
def postRowOK (p : PPost) : Bool :=
  nonBlank p.title && clickbaity p.title &&
    contentOK p.content && summaryOK p.summary && categoryOK p.category

/-- Pairwise distinctness of both names and primary keys of author rows. -/
def authorsDistinct : List PAuthor → Bool
  | [] => true
  | r :: t => t.all (fun x => !(x.name == r.name) && !(x.id == r.id)) && authorsDistinct t

/-- Invariant of an in-memory author name attribute. -/
def memNameOK : Option String → Bool
  | none => true
  | some n => nonBlank n

/-- Invariant of an in-memory post title attribute. -/
def memTitleOK : Option String → Bool
  | none => true
  | some t => nonBlank t && clickbaity t

/-- Invariant of an in-memory author object. -/
def authorMemOK (a : Author) : Bool :=
  memNameOK a.name && phone10 a.phone_number

/-- Invariant of an in-memory post object. -/
def postMemOK (p : Post) : Bool :=
  memTitleOK p.title && contentOK p.content && summaryOK p.summary && categoryOK p.category

/-- Full well-formedness of a store: row invariants, author distinctness,
and freshness of the primary-key counter. -/
def storeWF (s : Store) : Bool :=
  s.authors.all authorRowOK && authorsDistinct s.authors &&
    s.authors.all (fun r => decide (r.id < s.nextAuthorId)) &&
    s.posts.all postRowOK

/-- A store holding one author named Ann, used to instantiate theorems. -/
def dbAnn : Store := ⟨[⟨1, "Ann", none⟩], [], 2, 1⟩

/-- A post whose only assigned attribute is a clickbait title. -/
def pTop : Post := ⟨none, some "Top news", none, none, none⟩

/-- The store obtained by committing `pTop` to the empty database. -/
def sPost : Store := ⟨[], [⟨1, "Top news", none, none, none⟩], 1, 2⟩

/-- A string of `n` repetitions of the letter a. -/
def repA (n : Nat) : String := String.mk (List.replicate n 'a')

/-- Disjunction of emptiness and an all-test collapses to the all-test. -/
lemma isEmpty_or_all (l : List Char) (p : Char → Bool) :
    (l.isEmpty || l.all p) = l.all p := by
  cases l <;> simp

/-- Blankness of a present string reduces to the all-whitespace test. -/
lemma isBlankOpt_some (t : String) :
    isBlankOpt (some t) = t.toList.all pyIsSpace := by
  simp only [isBlankOpt]
  exact isEmpty_or_all _ _

/-- A value that passes the blank test is a present, non-blank string. -/
lemma notBlank_of {v : Option String} (hb : isBlankOpt v = false) :
    ∃ n, v = some n ∧ nonBlank n = true := by
  cases v with
  | none => simp [isBlankOpt] at hb
  | some n =>
    refine ⟨n, rfl, ?_⟩
    rw [isBlankOpt_some] at hb
    unfold nonBlank
    rw [hb]
    rfl

/-- A successful name validation returns the candidate, which is a present,
non-blank string. -/
lemma validate_name_ok {db : Store} {a : Author} {v r : Option String}
    (h : validate_name db a v = .ok r) :
    r = v ∧ ∃ n, v = some n ∧ nonBlank n = true := by
  unfold validate_name at h
  split at h
  · cases h
  · rename_i hb
    rw [Bool.not_eq_true] at hb
    refine ?_
    split at h
    · split at h
      · cases h
      · cases h; exact ⟨rfl, notBlank_of hb⟩
    · cases h; exact ⟨rfl, notBlank_of hb⟩

/-- A successful phone validation returns the candidate, which satisfies the
stored-phone invariant. -/
lemma validate_phone_ok {db : Store} {a : Author} {v r : Option String}
    (h : validate_phone_number db a v = .ok r) :
    r = v ∧ phone10 v = true := by
  cases v with
  | none =>
    simp only [validate_phone_number] at h
    cases h
    exact ⟨rfl, rfl⟩
  | some p =>
    simp only [validate_phone_number] at h
    by_cases hc : (p.length != 10 || !(pyIsDigit p)) = true
    · rw [if_pos hc] at h
      cases h
    · rw [if_neg hc] at h
      cases h
      have hor : (p.length != 10 || !(pyIsDigit p)) = false := Bool.eq_false_iff.mpr hc
      rw [Bool.or_eq_false_iff] at hor
      obtain ⟨h1, h2⟩ := hor
      have h1b : p.length = 10 := by simpa using h1
      have h2b : pyIsDigit p = true := by simpa using h2
      refine ⟨rfl, ?_⟩
      simp only [phone10, h1b]
      simp only [pyIsDigit, Bool.and_eq_true] at h2b
      simpa using h2b.2

/-- A successful title validation returns the candidate, which satisfies the
in-memory title invariant. -/
lemma validate_title_ok {db : Store} {p : Post} {v r : Option String}
    (h : validate_title db p v = .ok r) :
    r = v ∧ memTitleOK v = true := by
  unfold validate_title at h
  split at h
  · cases h
  · rename_i hb
    rw [Bool.not_eq_true] at hb
    split at h
    · cases h
    · rename_i hc
      cases h
      obtain ⟨n, hn, hnb⟩ := notBlank_of hb
      subst hn
      have hc2 : clickbait_phrases.any (fun phrase => pyInStr phrase (strOf (some n))) = true := by
        simpa using hc
      refine ⟨rfl, ?_⟩
      simp only [memTitleOK, hnb, Bool.true_and]
      simpa [clickbaity, strOf] using hc2

/-- A successful content validation returns the candidate, which satisfies
the stored-content invariant. -/
lemma validate_content_ok {db : Store} {p : Post} {v r : Option String}
    (h : validate_content db p v = .ok r) :
    r = v ∧ contentOK v = true := by
  unfold validate_content at h
  split at h
  · cases h
  · rename_i hc
    cases h
    rw [Bool.not_eq_true, Bool.or_eq_false_iff] at hc
    obtain ⟨h1, h2⟩ := hc
    have h1b : pyTruthy v = true := by simpa using h1
    cases v with
    | none => simp [pyTruthy] at h1b
    | some c =>
      refine ⟨rfl, ?_⟩
      simp only [contentOK]
      simp [strOf] at h2
      simpa using h2

/-- A successful summary validation returns the candidate, which satisfies
the stored-summary invariant. -/
lemma validate_summary_ok {db : Store} {p : Post} {v r : Option String}
    (h : validate_summary db p v = .ok r) :
    r = v ∧ summaryOK v = true := by
  unfold validate_summary at h
  split at h
  · cases h
  · rename_i hc
    cases h
    refine ⟨rfl, ?_⟩
    cases v with
    | none => rfl
    | some s =>
      rw [Bool.not_eq_true, Bool.and_eq_false_iff] at hc
      simp only [summaryOK]
      rcases hc with h1 | h2
      · simp at h1
      · simp [strOf] at h2
        simpa using h2

/-- A successful category validation returns the candidate, which satisfies
the stored-category invariant. -/
lemma validate_category_ok {db : Store} {p : Post} {v r : Option String}
    (h : validate_category db p v = .ok r) :
    r = v ∧ categoryOK v = true := by
  unfold validate_category at h
  split at h
  · cases h
  · rename_i hc
    cases h
    by_cases h1 : v = some "Fiction"
    · subst h1; exact ⟨rfl, rfl⟩
    by_cases h2 : v = some "Non-Fiction"
    · subst h2; exact ⟨rfl, rfl⟩
    exfalso
    apply hc
    simp [h1, h2]

/-- Front matching holds exactly when the pattern is a leading segment. -/
lemma leadMatch_spec (nd : List Char) :
    ∀ hay, leadMatch nd hay = true ↔ ∃ t, nd ++ t = hay := by
  induction nd with
  | nil => intro hay; simp [leadMatch]
  | cons c cs ih =>
    intro hay
    cases hay with
    | nil => simp [leadMatch]
    | cons d ds =>
      simp [leadMatch, ih ds, List.cons_append, eq_comm (a := c) (b := d)]

/-- Substring matching holds exactly when the pattern occurs contiguously
somewhere in the scanned list. -/
lemma subMatch_spec (nd : List Char) :
    ∀ hay, subMatch nd hay = true ↔ ∃ s t, s ++ nd ++ t = hay := by
  intro hay
  induction hay with
  | nil => simp [subMatch, List.append_eq_nil, List.isEmpty_iff]
  | cons d ds ih =>
    simp only [subMatch, Bool.or_eq_true, leadMatch_spec, ih]
    constructor
    · rintro (⟨t, ht⟩ | ⟨s, t, hst⟩)
      · exact ⟨[], t, by simpa using ht⟩
      · exact ⟨d :: s, t, by simp [hst]⟩
    · rintro ⟨s, t, hst⟩
      cases s with
      | nil => exact Or.inl ⟨t, by simpa using hst⟩
      | cons x xs =>
        simp only [List.cons_append, List.cons.injEq] at hst
        exact Or.inr ⟨xs, t, hst.2⟩

/-- Acceptance of a one-test validator body is the negation of its test. -/
lemma accepts_if (b : Bool) (msg : String) (v : Option String) :
    accepts (if b then Except.error msg else Except.ok v) = !b := by
  cases b <;> simp [accepts]

/-- Character length of a string is the length of its character list. -/
lemma length_toList (s : String) : s.toList.length = s.length := rfl

/-- Claim C3: `validate_phone_number` accepts exactly `None` and the strings
of length 10 made of decimal digits; everything else is rejected. -/
theorem validate_phone_number_spec (db : Store) (self : Author) :
    accepts (validate_phone_number db self none) = true ∧
    (∀ p : String,
      (accepts (validate_phone_number db self (some p)) = true ↔
        (p.length = 10 ∧ ∀ c ∈ p.toList, pyIsDigitChar c = true))) := by
  refine ⟨rfl, fun p => ?_⟩
  simp only [validate_phone_number, accepts_if, Bool.not_eq_true']
  rw [Bool.or_eq_false_iff]
  constructor
  · rintro ⟨h1, h2⟩
    have h1b : p.length = 10 := by simpa using h1
    have h2b : pyIsDigit p = true := by simpa using h2
    simp only [pyIsDigit, Bool.and_eq_true] at h2b
    exact ⟨h1b, by simpa using h2b.2⟩
  · rintro ⟨h1, h2⟩
    have hne : p.toList ≠ [] := by
      intro h0
      have : p.length = 0 := by rw [← length_toList, h0]; rfl
      omega
    constructor
    · simp [h1]
    · have : pyIsDigit p = true := by
        simp only [pyIsDigit, Bool.and_eq_true]
        constructor
        · simpa [List.isEmpty_iff] using hne
        · simpa using h2
      simp [this]

set_option maxRecDepth 8192 in
/-- Claim C5: `validate_content` rejects an absent value and accepts a
present string exactly when its character length is at least 250; the
boundary cases behave as specified. -/
theorem validate_content_spec (db : Store) (self : Post) :
    accepts (validate_content db self none) = false ∧
    (∀ c : String,
      (accepts (validate_content db self (some c)) = true ↔ 250 ≤ c.length)) ∧
    accepts (validate_content db self (some (repA 249))) = false ∧
    accepts (validate_content db self (some (repA 250))) = true := by
  refine ⟨rfl, fun c => ?_, ?_, ?_⟩
  · simp only [validate_content, accepts_if, Bool.not_eq_true']
    rw [Bool.or_eq_false_iff]
    constructor
    · rintro ⟨_, h2⟩
      have : ¬(c.length < 250) := by simpa [strOf] using h2
      omega
    · intro hlen
      have hne : c.toList ≠ [] := by
        intro h0
        have : c.length = 0 := by rw [← length_toList, h0]; rfl
        omega
      constructor
      · simp only [pyTruthy, Bool.not_eq_false']
        simpa [List.isEmpty_iff] using hne
      · simp [strOf]
        omega
  · rfl
  · rfl

set_option maxRecDepth 8192 in
/-- Claim C6: `validate_summary` accepts exactly an absent value or a string
of character length at most 250; the stated examples behave as specified. -/
theorem validate_summary_spec (db : Store) (self : Post) :
    (∀ v : Option String,
      (accepts (validate_summary db self v) = true ↔
        (v = none ∨ ∃ s, v = some s ∧ s.length ≤ 250))) ∧
    accepts (validate_summary db self (some (repA 251))) = false ∧
    accepts (validate_summary db self (some "")) = true := by
  refine ⟨fun v => ?_, rfl, rfl⟩
  cases v with
  | none => simp [validate_summary, accepts]
  | some s =>
    simp only [validate_summary, accepts_if, Bool.not_eq_true']
    rw [Bool.and_eq_false_iff]
    constructor
    · rintro (h | h)
      · simp at h
      · have : ¬(250 < s.length) := by simpa [strOf] using h
        exact Or.inr ⟨s, rfl, by omega⟩
    · rintro (h | ⟨t, ht, hlen⟩)
      · cases h
      · cases ht
        refine Or.inr ?_
        simp [strOf]
        omega

/-- Claim C7: `validate_category` accepts exactly the strings Fiction and
Non-Fiction, with exact case-sensitive comparison; the stated examples
behave as specified. -/
theorem validate_category_spec (db : Store) (self : Post) :
    (∀ v : Option String,
      (accepts (validate_category db self v) = true ↔
        (v = some "Fiction" ∨ v = some "Non-Fiction"))) ∧
    accepts (validate_category db self (some "Fiction")) = true ∧
    accepts (validate_category db self (some "fiction")) = false ∧
    accepts (validate_category db self none) = false := by
  refine ⟨fun v => ?_, rfl, rfl, rfl⟩
  unfold validate_category
  rw [accepts_if]
  simp

/-- Claim C4: `validate_title` rejects an absent or blank candidate and
otherwise accepts exactly when one of the four fixed phrases occurs in the
candidate as a literal, case-sensitive, contiguous substring; the stated
examples behave as specified. -/
theorem validate_title_spec (db : Store) (self : Post) :
    accepts (validate_title db self none) = false ∧
    (∀ t : String,
      (accepts (validate_title db self (some t)) = true ↔
        (¬(∀ c ∈ t.toList, pyIsSpace c = true) ∧
          ∃ phrase ∈ clickbait_phrases, ∃ s u, s ++ phrase.toList ++ u = t.toList))) ∧
    accepts (validate_title db self (some "Top 10 Secrets")) = true ∧
    accepts (validate_title db self (some "A Nice Day")) = false := by
  refine ⟨rfl, fun t => ?_, ?_, ?_⟩
  · simp only [validate_title, isBlankOpt_some]
    cases hb : t.toList.all pyIsSpace with
    | true =>
      rw [if_pos rfl]
      simp only [accepts]
      constructor
      · intro h; cases h
      · rintro ⟨hnb, _⟩
        exact absurd (List.all_eq_true.mp hb) hnb
    | false =>
      rw [if_neg (by simp)]
      rw [accepts_if, Bool.not_not]
      have hnb : ¬(∀ c ∈ t.toList, pyIsSpace c = true) := by
        intro hall
        rw [List.all_eq_true.mpr hall] at hb
        cases hb
      constructor
      · intro hany
        refine ⟨hnb, ?_⟩
        obtain ⟨ph, hmem, hmatch⟩ := List.any_eq_true.mp hany
        exact ⟨ph, hmem, (subMatch_spec _ _).mp (by simpa [pyInStr, strOf] using hmatch)⟩
      · rintro ⟨_, ph, hmem, hocc⟩
        exact List.any_eq_true.mpr
          ⟨ph, hmem, by simpa [pyInStr, strOf] using (subMatch_spec _ _).mpr hocc⟩
  · rfl
  · rfl

/-- Claim C9: each of the four `Post` validators is a pure function of the
candidate value alone: its outcome does not depend on the persisted store or
on the record being validated. -/
theorem post_validators_pure (db1 db2 : Store) (p1 p2 : Post) (v : Option String) :
    validate_title db1 p1 v = validate_title db2 p2 v ∧
    validate_content db1 p1 v = validate_content db2 p2 v ∧
    validate_summary db1 p1 v = validate_summary db2 p2 v ∧
    validate_category db1 p1 v = validate_category db2 p2 v :=
  ⟨rfl, rfl, rfl, rfl⟩

/-- In a distinct author list, two rows with the same name coincide. -/
lemma distinct_name_inj :
    ∀ {l : List PAuthor}, authorsDistinct l = true →
      ∀ {x y : PAuthor}, x ∈ l → y ∈ l → x.name = y.name → x = y := by
  intro l
  induction l with
  | nil => intro _ x y hx; cases hx
  | cons r u ih =>
    intro hd x y hx hy hn
    simp only [authorsDistinct, Bool.and_eq_true] at hd
    obtain ⟨h1, h2⟩ := hd
    have h1b := List.all_eq_true.mp h1
    rcases List.mem_cons.mp hx with rfl | hx2
    · rcases List.mem_cons.mp hy with rfl | hy2
      · rfl
      · have hy3 := h1b y hy2
        rw [Bool.and_eq_true] at hy3
        have hne : y.name ≠ x.name := by simpa using hy3.1
        exact (hne hn.symm).elim
    · rcases List.mem_cons.mp hy with rfl | hy2
      · have hx3 := h1b x hx2
        rw [Bool.and_eq_true] at hx3
        have hne : x.name ≠ y.name := by simpa using hx3.1
        exact (hne hn).elim
      · exact ih h2 hx2 hy2 hn

/-- Claim C2: over a store whose persisted authors are pairwise distinct (as
the database unique constraint guarantees for every reachable store),
`validate_name` rejects a present candidate exactly when it is blank or a
persisted author carries that name and is a different record (primary-key
comparison, under which a brand-new record with `id = none` differs from
every persisted row); on acceptance the candidate itself is returned as the
new field value. -/
theorem validate_name_spec (db : Store) (self : Author) (t : String)
    (hdb : authorsDistinct db.authors = true) :
    ((accepts (validate_name db self (some t)) = false) ↔
      ((∀ c ∈ t.toList, pyIsSpace c = true) ∨
        ∃ r ∈ db.authors, r.name = t ∧ some r.id ≠ self.id)) ∧
    (∀ r, validate_name db self (some t) = .ok r → r = some t) := by
  constructor
  · unfold validate_name
    simp only [isBlankOpt_some]
    split
    · rename_i hb
      simp only [accepts]
      constructor
      · intro _
        exact Or.inl (List.all_eq_true.mp hb)
      · intro _
        trivial
    · rename_i hb
      rw [Bool.not_eq_true] at hb
      split
      · rename_i ex hf
        have hex_mem := List.mem_of_find?_eq_some hf
        have hex_name : ex.name = t := by simpa using List.find?_some hf
        split
        · rename_i hid
          simp only [accepts]
          constructor
          · intro _
            exact Or.inr ⟨ex, hex_mem, hex_name, by simpa using hid⟩
          · intro _
            trivial
        · rename_i hid
          have heq : some ex.id = self.id := by simpa using hid
          simp only [accepts]
          constructor
          · intro h
            simp at h
          · rintro (hsp | ⟨r, hr, hname, hid2⟩)
            · rw [List.all_eq_true.mpr hsp] at hb
              cases hb
            · have hre : r = ex := distinct_name_inj hdb hr hex_mem (hname.trans hex_name.symm)
              exact (hid2 (hre ▸ heq)).elim
      · rename_i hf
        simp only [accepts]
        constructor
        · intro h
          simp at h
        · rintro (hsp | ⟨r, hr, hname, _⟩)
          · rw [List.all_eq_true.mpr hsp] at hb
            cases hb
          · have := List.find?_eq_none.mp hf r hr
            simp [hname] at this
  · intro r h
    exact (validate_name_ok h).1

/-- Witness for claim C2: with one committed author named Ann, assigning the
name Ann to a brand-new record is rejected. -/
theorem validate_name_spec_w :
    authorsDistinct dbAnn.authors = true ∧
    (((accepts (validate_name dbAnn fresh_author (some "Ann")) = false) ↔
      ((∀ c ∈ "Ann".toList, pyIsSpace c = true) ∨
        ∃ r ∈ dbAnn.authors, r.name = "Ann" ∧ some r.id ≠ fresh_author.id)) ∧
     (∀ r, validate_name dbAnn fresh_author (some "Ann") = .ok r → r = some "Ann")) :=
  ⟨by decide, validate_name_spec dbAnn fresh_author "Ann" (by decide)⟩

/-- Claim C10: the uniqueness lookup consults only committed rows.  When no
committed author carries a non-blank name, validation of that name succeeds
for any two in-memory records, whatever names other in-memory records hold;
conversely a rejection means the name was blank or some committed author
already carried it. -/
theorem uniqueness_reads_committed_only (db : Store) (a1 a2 self : Author) (t : String) :
    ((t.toList.all pyIsSpace = false ∧ ∀ r ∈ db.authors, r.name ≠ t) →
      (validate_name db a1 (some t) = .ok (some t) ∧
       validate_name db a2 (some t) = .ok (some t))) ∧
    (∀ e, validate_name db self (some t) = .error e →
      (t.toList.all pyIsSpace = true ∨ ∃ r ∈ db.authors, r.name = t)) := by
  have key : ∀ b : Author, t.toList.all pyIsSpace = false → (∀ r ∈ db.authors, r.name ≠ t) →
      validate_name db b (some t) = .ok (some t) := by
    intro b hb hfree
    unfold validate_name
    simp only [isBlankOpt_some]
    rw [if_neg (by rw [hb]; exact Bool.false_ne_true)]
    have hf : db.authors.find? (fun r => some r.name == some t) = none := by
      rw [List.find?_eq_none]
      intro x hx
      simp [hfree x hx]
    rw [hf]
  constructor
  · rintro ⟨hb, hfree⟩
    exact ⟨key a1 hb hfree, key a2 hb hfree⟩
  · intro e herr
    by_cases hb : t.toList.all pyIsSpace = true
    · exact Or.inl hb
    · right
      unfold validate_name at herr
      simp only [isBlankOpt_some] at herr
      rw [if_neg hb] at herr
      cases hf : db.authors.find? (fun r => some r.name == some t) with
      | none =>
        rw [hf] at herr
        simp at herr
      | some ex =>
        exact ⟨ex, List.mem_of_find?_eq_some hf, by simpa using List.find?_some hf⟩

/-- Witness for claim C10: over the empty store, a brand-new record and an
in-memory record already named Ann both pass validation of the name Ann. -/
theorem uniqueness_reads_committed_only_w :
    ("Ann".toList.all pyIsSpace = false ∧ ∀ r ∈ store0.authors, r.name ≠ "Ann") ∧
    (validate_name store0 fresh_author (some "Ann") = .ok (some "Ann") ∧
     validate_name store0 ⟨none, some "Ann", none⟩ (some "Ann") = .ok (some "Ann")) :=
  ⟨⟨by decide, by decide⟩,
    (uniqueness_reads_committed_only store0 fresh_author
      ⟨none, some "Ann", none⟩ fresh_author "Ann").1 ⟨by decide, by decide⟩⟩

/-- Claim C8: a validator rejection propagates unchanged through the
assignment operation: the assignment yields the very error the validator
raised, hence no updated record (and no store change) is produced. -/
theorem rejection_propagates (db : Store) (a : Author) (p : Post) (v : Option String)
    (e : String) :
    (validate_name db a v = .error e → assignAuthorName db a v = .error e) ∧
    (validate_phone_number db a v = .error e → assignAuthorPhone db a v = .error e) ∧
    (validate_title db p v = .error e → assignPostTitle db p v = .error e) ∧
    (validate_content db p v = .error e → assignPostContent db p v = .error e) ∧
    (validate_summary db p v = .error e → assignPostSummary db p v = .error e) ∧
    (validate_category db p v = .error e → assignPostCategory db p v = .error e) := by
  refine ⟨?_, ?_, ?_, ?_, ?_, ?_⟩ <;> intro h <;>
    simp [assignAuthorName, assignAuthorPhone, assignPostTitle, assignPostContent,
      assignPostSummary, assignPostCategory, h]

/-- Witness for claim C8: assigning an empty name raises the validator error
unchanged. -/
theorem rejection_propagates_w :
    validate_name store0 fresh_author (some "") = .error "Author must have a name." ∧
    assignAuthorName store0 fresh_author (some "") = .error "Author must have a name." :=
  ⟨rfl, (rejection_propagates store0 fresh_author fresh_post (some "")
    "Author must have a name.").1 rfl⟩

/-- A successful name assignment stores the candidate and nothing else. -/
lemma assignAuthorName_ok {db : Store} {a a2 : Author} {v : Option String}
    (h : assignAuthorName db a v = .ok a2) :
    a2 = { a with name := v } ∧ memNameOK v = true := by
  unfold assignAuthorName at h
  cases hv : validate_name db a v with
  | error e => rw [hv] at h; cases h
  | ok r =>
    rw [hv] at h
    cases h
    obtain ⟨hr, n, hn, hnb⟩ := validate_name_ok hv
    subst hr
    subst hn
    exact ⟨rfl, by simpa [memNameOK] using hnb⟩

/-- A successful phone assignment stores the candidate and nothing else. -/
lemma assignAuthorPhone_ok {db : Store} {a a2 : Author} {v : Option String}
    (h : assignAuthorPhone db a v = .ok a2) :
    a2 = { a with phone_number := v } ∧ phone10 v = true := by
  unfold assignAuthorPhone at h
  cases hv : validate_phone_number db a v with
  | error e => rw [hv] at h; cases h
  | ok r =>
    rw [hv] at h
    cases h
    obtain ⟨hr, hp⟩ := validate_phone_ok hv
    subst hr
    exact ⟨rfl, hp⟩

/-- A successful title assignment stores the candidate and nothing else. -/
lemma assignPostTitle_ok {db : Store} {p p2 : Post} {v : Option String}
    (h : assignPostTitle db p v = .ok p2) :
    p2 = { p with title := v } ∧ memTitleOK v = true := by
  unfold assignPostTitle at h
  cases hv : validate_title db p v with
  | error e => rw [hv] at h; cases h
  | ok r =>
    rw [hv] at h
    cases h
    obtain ⟨hr, hp⟩ := validate_title_ok hv
    subst hr
    exact ⟨rfl, hp⟩

/-- A successful content assignment stores the candidate and nothing else. -/
lemma assignPostContent_ok {db : Store} {p p2 : Post} {v : Option String}
    (h : assignPostContent db p v = .ok p2) :
    p2 = { p with content := v } ∧ contentOK v = true := by
  unfold assignPostContent at h
  cases hv : validate_content db p v with
  | error e => rw [hv] at h; cases h
  | ok r =>
    rw [hv] at h
    cases h
    obtain ⟨hr, hp⟩ := validate_content_ok hv
    subst hr
    exact ⟨rfl, hp⟩

/-- A successful summary assignment stores the candidate and nothing else. -/
lemma assignPostSummary_ok {db : Store} {p p2 : Post} {v : Option String}
    (h : assignPostSummary db p v = .ok p2) :
    p2 = { p with summary := v } ∧ summaryOK v = true := by
  unfold assignPostSummary at h
  cases hv : validate_summary db p v with
  | error e => rw [hv] at h; cases h
  | ok r =>
    rw [hv] at h
    cases h
    obtain ⟨hr, hp⟩ := validate_summary_ok hv
    subst hr
    exact ⟨rfl, hp⟩

/-- A successful category assignment stores the candidate and nothing else. -/
lemma assignPostCategory_ok {db : Store} {p p2 : Post} {v : Option String}
    (h : assignPostCategory db p v = .ok p2) :
    p2 = { p with category := v } ∧ categoryOK v = true := by
  unfold assignPostCategory at h
  cases hv : validate_category db p v with
  | error e => rw [hv] at h; cases h
  | ok r =>
    rw [hv] at h
    cases h
    obtain ⟨hr, hp⟩ := validate_category_ok hv
    subst hr
    exact ⟨rfl, hp⟩

/-- One validated assignment preserves the in-memory author invariant. -/
lemma authorAssign_memOK {a a2 : Author} (st : AuthorAssign a a2)
    (h : authorMemOK a = true) : authorMemOK a2 = true := by
  rw [authorMemOK, Bool.and_eq_true] at h
  cases st with
  | name db x y v hok =>
    obtain ⟨hy, hv⟩ := assignAuthorName_ok hok
    subst hy
    simp [authorMemOK, hv, h.2]
  | phone db x y v hok =>
    obtain ⟨hy, hv⟩ := assignAuthorPhone_ok hok
    subst hy
    simp [authorMemOK, hv, h.1]

/-- One validated assignment preserves the in-memory post invariant. -/
lemma postAssign_memOK {p p2 : Post} (st : PostAssign p p2)
    (h : postMemOK p = true) : postMemOK p2 = true := by
  rw [postMemOK, Bool.and_eq_true, Bool.and_eq_true, Bool.and_eq_true] at h
  obtain ⟨⟨⟨h1, h2⟩, h3⟩, h4⟩ := h
  cases st with
  | title db x y v hok =>
    obtain ⟨hy, hv⟩ := assignPostTitle_ok hok
    subst hy
    simp [postMemOK, hv, h2, h3, h4]
  | content db x y v hok =>
    obtain ⟨hy, hv⟩ := assignPostContent_ok hok
    subst hy
    simp [postMemOK, hv, h1, h3, h4]
  | summary db x y v hok =>
    obtain ⟨hy, hv⟩ := assignPostSummary_ok hok
    subst hy
    simp [postMemOK, hv, h1, h2, h4]
  | category db x y v hok =>
    obtain ⟨hy, hv⟩ := assignPostCategory_ok hok
    subst hy
    simp [postMemOK, hv, h1, h2, h3]

/-- Any build sequence preserves the in-memory author invariant. -/
lemma authorBuild_memOK {a a2 : Author} (hb : AuthorBuild a a2)
    (h : authorMemOK a = true) : authorMemOK a2 = true := by
  induction hb with
  | refl => exact h
  | tail hab hbc ih => exact authorAssign_memOK hbc ih

/-- Any build sequence preserves the in-memory post invariant. -/
lemma postBuild_memOK {p p2 : Post} (hb : PostBuild p p2)
    (h : postMemOK p = true) : postMemOK p2 = true := by
  induction hb with
  | refl => exact h
  | tail hab hbc ih => exact postAssign_memOK hbc ih

/-- Loading a well-formed author row yields a well-formed in-memory object. -/
lemma loadAuthor_memOK {r : PAuthor} (h : authorRowOK r = true) :
    authorMemOK (loadAuthor r) = true := by
  rw [authorRowOK, Bool.and_eq_true] at h
  simp [authorMemOK, loadAuthor, memNameOK, h.1, h.2]

/-- Loading a well-formed post row yields a well-formed in-memory object. -/
lemma loadPost_memOK {r : PPost} (h : postRowOK r = true) :
    postMemOK (loadPost r) = true := by
  rw [postRowOK, Bool.and_eq_true, Bool.and_eq_true, Bool.and_eq_true,
    Bool.and_eq_true] at h
  obtain ⟨⟨⟨⟨h1, h2⟩, h3⟩, h4⟩, h5⟩ := h
  simp [postMemOK, loadPost, memTitleOK, h1, h2, h3, h4, h5]

/-- Unpacking of the store well-formedness conjunction. -/
lemma storeWF_iff (s : Store) :
    storeWF s = true ↔
      (s.authors.all authorRowOK = true ∧ authorsDistinct s.authors = true ∧
       s.authors.all (fun r => decide (r.id < s.nextAuthorId)) = true ∧
       s.posts.all postRowOK = true) := by
  simp [storeWF, Bool.and_eq_true, and_assoc]

/-- Updating one row (selected by primary key) to a name no other row
carries preserves pairwise distinctness of names and primary keys. -/
lemma authorsDistinct_update {i : Nat} {n : String} {ph : Option String} :
    ∀ {l : List PAuthor}, authorsDistinct l = true →
      (∀ r ∈ l, (r.id == i) = true ∨ (r.name == n) = false) →
      authorsDistinct (l.map (fun r => if r.id == i then ⟨i, n, ph⟩ else r)) = true := by
  intro l
  induction l with
  | nil => intro _ _; rfl
  | cons r u ih =>
    intro hd hn
    simp only [authorsDistinct, Bool.and_eq_true] at hd
    obtain ⟨h1, h2⟩ := hd
    have h1b := List.all_eq_true.mp h1
    have hnr := hn r (List.mem_cons_self r u)
    have hnt : ∀ x ∈ u, (x.id == i) = true ∨ (x.name == n) = false :=
      fun x hx => hn x (List.mem_cons_of_mem r hx)
    simp only [List.map_cons, authorsDistinct, Bool.and_eq_true]
    refine ⟨?_, ih h2 hnt⟩
    rw [List.all_eq_true]
    intro x hx
    obtain ⟨y, hy, rfl⟩ := List.mem_map.mp hx
    have hdy := h1b y hy
    rw [Bool.and_eq_true] at hdy
    have hyname : y.name ≠ r.name := by simpa using hdy.1
    have hyid : y.id ≠ r.id := by simpa using hdy.2
    by_cases hyi : (y.id == i) = true
    · have hyi2 : y.id = i := by simpa using hyi
      by_cases hri : (r.id == i) = true
      · have hri2 : r.id = i := by simpa using hri
        exact absurd (hyi2.trans hri2.symm) hyid
      · have hrn : r.name ≠ n := by
          rcases hnr with hc | hc
          · exact absurd hc hri
          · simpa using hc
        have hri2 : r.id ≠ i := fun hEq => hri (by simp [hEq])
        simp [hyi, hri, Ne.symm hrn, Ne.symm hri2]
    · by_cases hri : (r.id == i) = true
      · have hyn : y.name ≠ n := by
          rcases hnt y hy with hc | hc
          · exact absurd hc hyi
          · simpa using hc
        have hyi2 : y.id ≠ i := fun hEq => hyi (by simp [hEq])
        simp [hyi, hri, hyn, hyi2]
      · simp [hyi, hri, hyname, hyid]

/-- Committing a new well-formed author preserves store well-formedness. -/
lemma insertAuthor_wf {s s2 : Store} {a : Author}
    (h : insertAuthor s a = .ok s2) (hm : authorMemOK a = true)
    (hw : storeWF s = true) : storeWF s2 = true := by
  rw [storeWF_iff] at hw
  obtain ⟨hrows, hdist, hids, hposts⟩ := hw
  rw [authorMemOK, Bool.and_eq_true] at hm
  unfold insertAuthor at h
  split at h
  · cases h
  · rename_i n hn
    split at h
    · cases h
    · rename_i hany
      cases h
      have hfree : ∀ r ∈ s.authors, (r.name == n) = false := by
        intro r hr
        rcases Bool.eq_false_or_eq_true (r.name == n) with ht | hf
        · exact absurd (List.any_eq_true.mpr ⟨r, hr, ht⟩) hany
        · exact hf
      have hnb : nonBlank n = true := by
        have := hm.1
        rw [hn] at this
        simpa [memNameOK] using this
      rw [storeWF_iff]
      refine ⟨?_, ?_, ?_, hposts⟩
      · simp only [List.all_cons, Bool.and_eq_true]
        exact ⟨by simp [authorRowOK, hnb, hm.2], hrows⟩
      · simp only [authorsDistinct, Bool.and_eq_true]
        refine ⟨?_, hdist⟩
        rw [List.all_eq_true]
        intro x hx
        have h1 := hfree x hx
        have h2 := of_decide_eq_true (List.all_eq_true.mp hids x hx)
        have h2b : x.id ≠ s.nextAuthorId := by omega
        simp [h1, h2b]
      · rw [List.all_eq_true]
        intro x hx
        rcases List.mem_cons.mp hx with rfl | hx2
        · exact decide_eq_true (Nat.lt_succ_self _)
        · have := of_decide_eq_true (List.all_eq_true.mp hids x hx2)
          simpa using Nat.lt_trans this (Nat.lt_succ_self _)

/-- Committing a well-formed update to an author row preserves store
well-formedness. -/
lemma updateAuthor_wf {s s2 : Store} {i : Nat} {a : Author}
    (h : updateAuthor s i a = .ok s2) (hm : authorMemOK a = true)
    (hw : storeWF s = true) : storeWF s2 = true := by
  rw [storeWF_iff] at hw
  obtain ⟨hrows, hdist, hids, hposts⟩ := hw
  rw [authorMemOK, Bool.and_eq_true] at hm
  unfold updateAuthor at h
  split at h
  · cases h
  · rename_i n hn
    split at h
    · cases h
    · rename_i hany
      cases h
      have hcond : ∀ r ∈ s.authors, (r.id == i) = true ∨ (r.name == n) = false := by
        intro r hr
        by_cases h1 : (r.id == i) = true
        · exact Or.inl h1
        · right
          rcases Bool.eq_false_or_eq_true (r.name == n) with ht | hf
          · exfalso
            apply hany
            refine List.any_eq_true.mpr ⟨r, hr, ?_⟩
            simp [Bool.eq_false_iff.mpr h1, ht]
          · exact hf
      have hnb : nonBlank n = true := by
        have := hm.1
        rw [hn] at this
        simpa [memNameOK] using this
      rw [storeWF_iff]
      refine ⟨?_, authorsDistinct_update hdist hcond, ?_, hposts⟩
      · rw [List.all_eq_true]
        intro x hx
        obtain ⟨y, hy, rfl⟩ := List.mem_map.mp hx
        by_cases hyi : (y.id == i) = true
        · simp [hyi, authorRowOK, hnb, hm.2]
        · have := List.all_eq_true.mp hrows y hy
          simpa [hyi] using this
      · rw [List.all_eq_true]
        intro x hx
        obtain ⟨y, hy, rfl⟩ := List.mem_map.mp hx
        have hylt := of_decide_eq_true (List.all_eq_true.mp hids y hy)
        by_cases hyi : (y.id == i) = true
        · have hyi2 : y.id = i := by simpa using hyi
          simp only [hyi, if_true]
          simpa using hyi2 ▸ hylt
        · simpa [hyi] using hylt

/-- Committing a new well-formed post preserves store well-formedness. -/
lemma insertPost_wf {s s2 : Store} {p : Post}
    (h : insertPost s p = .ok s2) (hm : postMemOK p = true)
    (hw : storeWF s = true) : storeWF s2 = true := by
  rw [storeWF_iff] at hw
  obtain ⟨hrows, hdist, hids, hposts⟩ := hw
  rw [postMemOK, Bool.and_eq_true, Bool.and_eq_true, Bool.and_eq_true] at hm
  obtain ⟨⟨⟨h1, h2⟩, h3⟩, h4⟩ := hm
  unfold insertPost at h
  split at h
  · cases h
  · rename_i t ht
    cases h
    rw [ht] at h1
    rw [memTitleOK, Bool.and_eq_true] at h1
    rw [storeWF_iff]
    refine ⟨hrows, hdist, hids, ?_⟩
    simp only [List.all_cons, Bool.and_eq_true]
    exact ⟨by simp [postRowOK, h1.1, h1.2, h2, h3, h4], hposts⟩

/-- Committing a well-formed update to a post row preserves store
well-formedness. -/
lemma updatePost_wf {s s2 : Store} {i : Nat} {p : Post}
    (h : updatePost s i p = .ok s2) (hm : postMemOK p = true)
    (hw : storeWF s = true) : storeWF s2 = true := by
  rw [storeWF_iff] at hw
  obtain ⟨hrows, hdist, hids, hposts⟩ := hw
  rw [postMemOK, Bool.and_eq_true, Bool.and_eq_true, Bool.and_eq_true] at hm
  obtain ⟨⟨⟨h1, h2⟩, h3⟩, h4⟩ := hm
  unfold updatePost at h
  split at h
  · cases h
  · rename_i t ht
    cases h
    rw [ht] at h1
    rw [memTitleOK, Bool.and_eq_true] at h1
    rw [storeWF_iff]
    refine ⟨hrows, hdist, hids, ?_⟩
    rw [List.all_eq_true]
    intro x hx
    obtain ⟨y, hy, rfl⟩ := List.mem_map.mp hx
    by_cases hyi : (y.id == i) = true
    · simp [hyi, postRowOK, h1.1, h1.2, h2, h3, h4]
    · have := List.all_eq_true.mp hposts y hy
      simpa [hyi] using this

/-- Every reachable store is well-formed. -/
lemma reachable_storeWF : ∀ {s : Store}, Reachable s → storeWF s = true := by
  intro s h
  induction h with
  | init => rfl
  | createAuthor hr hb hins ih =>
    exact insertAuthor_wf hins (authorBuild_memOK hb rfl) ih
  | editAuthor hr hmem hb hupd ih =>
    refine updateAuthor_wf hupd (authorBuild_memOK hb (loadAuthor_memOK ?_)) ih
    exact List.all_eq_true.mp ((storeWF_iff _).mp ih).1 _ hmem
  | createPost hr hb hins ih =>
    exact insertPost_wf hins (postBuild_memOK hb rfl) ih
  | editPost hr hmem hb hupd ih =>
    refine updatePost_wf hupd (postBuild_memOK hb (loadPost_memOK ?_)) ih
    exact List.all_eq_true.mp ((storeWF_iff _).mp ih).2.2.2 _ hmem

/-- The store `sPost` is reachable: a fresh post is given the clickbait
title Top news (the only validated assignment) and committed. -/
lemma reachable_sPost : Reachable sPost :=
  Reachable.createPost Reachable.init
    (Relation.ReflTransGen.single
      (PostAssign.title store0 fresh_post pTop (some "Top news") (by rfl)))
    (by rfl)

/-- Counterexample to claim C1 as stated: a committed post row can carry no
content and no category at all, because validators run only on assignment
and those columns are nullable; such a row violates the claimed invariants
that content has length at least 250 and that category is exactly Fiction or
Non-Fiction. -/
theorem post_committed_without_category :
    Reachable sPost ∧
    ∃ q ∈ sPost.posts, q.content = none ∧
      q.category ≠ some "Fiction" ∧ q.category ≠ some "Non-Fiction" :=
  ⟨reachable_sPost, ⟨1, "Top news", none, none, none⟩, by decide, by decide, by decide,
    by decide⟩

/-- Amended claim C1: in every reachable store, every committed author row
has a non-blank name and an absent-or-10-digit phone number, author names
and primary keys are pairwise distinct, and every committed post row has a
non-blank clickbait title, absent-or-long-enough content, an
absent-or-short-enough summary, and an absent-or-enumerated category. -/
theorem reachable_store_invariants (s : Store) (h : Reachable s) :
    s.authors.all authorRowOK = true ∧ authorsDistinct s.authors = true ∧
    s.posts.all postRowOK = true := by
  have hw := (storeWF_iff s).mp (reachable_storeWF h)
  exact ⟨hw.1, hw.2.1, hw.2.2.2⟩

/-- Witness for the amended claim C1, instantiated at the reachable store
holding one committed post. -/
theorem reachable_store_invariants_w :
    Reachable sPost ∧
    (sPost.authors.all authorRowOK = true ∧ authorsDistinct sPost.authors = true ∧
     sPost.posts.all postRowOK = true) :=
  ⟨reachable_sPost, reachable_store_invariants sPost reachable_sPost⟩

end Models
